import Mathlib

/-!
A shallow embedding of the batch script `counting-words/main.py`.

The script enumerates files named `dc*.md`, extracts a section number from
each filename stem with `int(stem.replace('dc', ''))`, sends the file's
content to a remote text-generation service, scans the reply line by line
for `WORD_COUNT:` and `CONFIDENCE:` fields, records one row per file
(section, words, confidence) where a failed remote call or an unparseable
word count yields the literal sentinel `ERROR` with confidence 0, writes a
CSV with a fixed header, and prints two summary counters.

The remote call is abstracted by its observable outcome: `none` models any
exception raised while invoking or reading the service, `some t` models a
returned message content `t`.  File contents only flow into the prompt, so
they do not affect any recorded value and are not modelled.  Python's
`int` is modelled for ASCII sign-and-digit literals (underscore separators
and non-ASCII digits are out of scope for every input considered here).
-/

/-- Character-level model of Python `str.isspace` members relevant to
`str.strip()` / `int()`: space, tab, newline, carriage return, vertical
tab, form feed. -/
def pyIsSpace (c : Char) : Bool :=
  c == ' ' || c == '\t' || c == '\n' || c == '\r' || c.toNat == 11 || c.toNat == 12

/-- ASCII decimal digit test, the character class accepted inside a Python
`int()` literal. -/
def isDigitCh (c : Char) : Bool :=
  decide (48 ≤ c.toNat) && decide (c.toNat ≤ 57)

/-- Python `str.strip()`: remove leading and trailing whitespace. -/
def stripChars (s : List Char) : List Char :=
  ((s.dropWhile pyIsSpace).reverse.dropWhile pyIsSpace).reverse

/-- Python `str.split(sep)` for a one-character separator: every
occurrence splits, empty pieces are kept, the empty string yields one
empty piece. -/
def splitOnChar (sep : Char) : List Char → List (List Char)
  | [] => [[]]
  | c :: cs =>
    if c = sep then [] :: splitOnChar sep cs
    else
      match splitOnChar sep cs with
      | [] => [[c]]
      | y :: ys => (c :: y) :: ys

/-- Whether `pat` is an initial segment of `l`. -/
def begins : List Char → List Char → Bool
  | [], _ => true
  | _ :: _, [] => false
  | p :: ps, c :: cs => if p = c then begins ps cs else false

/-- Python's substring test `pat in line`. -/
def hasSub (pat : List Char) : List Char → Bool
  | [] => pat.isEmpty
  | c :: cs => begins pat (c :: cs) || hasSub pat cs

/-- Value of a digit string read in base 10 (the mathematical meaning of a
decimal literal, used to state parser correctness). -/
def decimalVal (ds : List Char) : Nat :=
  ds.foldl (fun a c => 10 * a + (c.toNat - 48)) 0

/-- Digit-by-digit accumulator behind `digitsVal`; fails on the first
non-digit character. -/
def digitsValAux : Nat → List Char → Option Nat
  | acc, [] => some acc
  | acc, c :: cs => if isDigitCh c then digitsValAux (10 * acc + (c.toNat - 48)) cs else none

/-- Parse a non-empty all-digit string; `none` on the empty string or any
non-digit. -/
def digitsVal : List Char → Option Nat
  | [] => none
  | c :: cs => digitsValAux 0 (c :: cs)

/-- Python `int(text)` after stripping: optional sign followed by digits. -/
def pyIntCore : List Char → Option Int
  | [] => none
  | c :: rest =>
    if c = '+' then (digitsVal rest).map (fun m => (m : Int))
    else if c = '-' then (digitsVal rest).map (fun m => -(m : Int))
    else (digitsVal (c :: rest)).map (fun m => (m : Int))

/-- Python `int(text)` on a string: strips whitespace, then sign and
digits; `none` models a raised `ValueError`. -/
def pyInt? (s : List Char) : Option Int :=
  pyIntCore (stripChars s)

/-- The label scanned for the word count, `WORD_COUNT:` (main.py line 65). -/
def wcLabel : List Char := "WORD_COUNT:".data

/-- The label scanned for the confidence, `CONFIDENCE:` (main.py line 70). -/
def confLabel : List Char := "CONFIDENCE:".data

/-- `line.split(':')[1]` fed to `int`, as in main.py lines 67 and 72; the
bare `except: pass` makes both a missing second segment and a failed
parse leave the previous value, which `none` models. -/
def field1Int (line : List Char) : Option Int :=
  match splitOnChar ':' line with
  | _ :: seg :: _ => pyInt? seg
  | _ => none

/-- One iteration of the parsing loop in main.py lines 64-74: a line
containing the word-count label overwrites `word_count` when its field
parses, and likewise independently for the confidence label. -/
def scanLine (st : Option Int × Option Int) (line : List Char) : Option Int × Option Int :=
  (if hasSub wcLabel line then
     match field1Int line with
     | some n => some n
     | none => st.1
   else st.1,
   if hasSub confLabel line then
     match field1Int line with
     | some n => some n
     | none => st.2
   else st.2)

/-- `response_text.strip().split('\n')`: the lines the parsing loop visits
(main.py lines 58 and 64). -/
def linesOf (t : String) : List (List Char) :=
  splitOnChar '\n' (stripChars t.data)

/-- The whole parsing loop of main.py lines 61-76 applied to a returned
message content. -/
def parseResponse (t : String) : Option Int × Option Int :=
  (linesOf t).foldl scanLine (none, none)

/-- `count_savior_words` (main.py lines 16-80) abstracted over the remote
call's outcome: `none` is any exception inside the `try` block, caught at
line 78 and downgraded to `(None, None)`; `some t` is a reply with message
content `t`, parsed by the line scanner. -/
def count_savior_words : Option String → Option Int × Option Int
  | none => (none, none)
  | some t => parseResponse t

/-- The `words` column of a result row: a parsed integer or the literal
string `ERROR` (main.py lines 110 and 118). -/
inductive WordsField
  | int : Int → WordsField
  | sentinel : WordsField
deriving DecidableEq

/-- One entry of the `results` list (main.py lines 108-120). -/
structure Row where
  sec : Int
  words : WordsField
  confidence : Int
deriving DecidableEq

/-- Python truthiness default `confidence if confidence else 0`
(main.py line 111): `None` and `0` both become `0`. -/
def pyTruthy : Option Int → Int
  | none => 0
  | some c => if c = 0 then 0 else c

/-- One enumerated input file: its filename stem and the outcome of its
remote call. -/
structure FileInput where
  stem : String
  response : Option String
deriving DecidableEq

/-- `file_path.stem.replace('dc', '')` (main.py line 96): remove every
occurrence of the substring `dc`, scanning left to right. -/
def stripDC : List Char → List Char
  | 'd' :: 'c' :: rest => stripDC rest
  | c :: rest => c :: stripDC rest
  | [] => []

/-- `int(file_path.stem.replace('dc', ''))` (main.py line 96); `none`
models the uncaught `ValueError`. -/
def sectionNum? (stem : String) : Option Int :=
  pyInt? (stripDC stem.data)

/-- The row appended for one document (main.py lines 107-120): an integer
word count gives `(section, count, confidence-or-0)`, an absent word count
gives `(section, ERROR, 0)`. -/
def mkRow (sec : Int) (pr : Option Int × Option Int) : Row :=
  match pr with
  | (some w, conf) => ⟨sec, WordsField.int w, pyTruthy conf⟩
  | (none, _) => ⟨sec, WordsField.sentinel, 0⟩

/-- The per-document body of the loop in main.py lines 94-120: the
section-number extraction may raise (propagating as `none`), otherwise one
row is produced. -/
def processFile (f : FileInput) : Option Row :=
  (sectionNum? f.stem).map (fun s => mkRow s (count_savior_words f.response))

/-- The whole loop of main.py lines 94-124 observed through the `results`
list that reaches the CSV writer: `none` when an uncaught exception aborts
the run before the output file is written. -/
def processAll : List FileInput → Option (List Row)
  | [] => some []
  | f :: fs =>
    match processFile f with
    | none => none
    | some r =>
      match processAll fs with
      | none => none
      | some rs => some (r :: rs)

/-- Whether a directory entry matches the glob `dc*.md`
(main.py line 13). -/
def isDCName (name : String) : Bool :=
  begins "dc".data name.data && begins ".md".data.reverse name.data.reverse
    && decide (5 ≤ name.data.length)

/-- Insert into a lexicographically sorted list of names. -/
def insertStr (s : String) : List String → List String
  | [] => [s]
  | t :: ts => if decide (t < s) then t :: insertStr s ts else s :: t :: ts

/-- `sorted(...)` over filenames, as a sorted permutation of the input. -/
def sortStrs : List String → List String
  | [] => []
  | s :: ss => insertStr s (sortStrs ss)

/-- `get_dc_files` (main.py lines 10-14) over an abstract directory
listing: keep the names matching `dc*.md` and sort them; a missing
directory is the empty listing, since `Path.glob` swallows it. -/
def get_dc_files (entries : List String) : List String :=
  sortStrs (entries.filter isDCName)

/-- `Path.stem` of a filename: the name up to the final dot, the whole
name when there is none. -/
def stemOf (name : String) : String :=
  match name.data.reverse.dropWhile (fun c => c != '.') with
  | [] => name
  | _ :: rest => ⟨rest.reverse⟩

/-- The run end to end: enumerate the listing, pair each discovered file
with its remote outcome, and process the loop (main.py lines 82-131). -/
def runReport (entries : List String) (fetch : String → Option String) : Option (List Row) :=
  processAll ((get_dc_files entries).map (fun name => ⟨stemOf name, fetch name⟩))

/-- The CSV cell written for the `words` column. -/
def wordsCell : WordsField → String
  | WordsField.int n => toString n
  | WordsField.sentinel => "ERROR"

/-- The fixed CSV header row (main.py line 129). -/
def csvHeader : String := "section,words,confidence"

/-- One CSV data row (main.py line 131). -/
def rowLine (r : Row) : String :=
  toString r.sec ++ "," ++ wordsCell r.words ++ "," ++ toString r.confidence

/-- The full output file as its list of lines: header then one row per
result in order (main.py lines 126-131). -/
def csvLines (rows : List Row) : List String :=
  csvHeader :: rows.map rowLine

/-- `sum(1 for r in results if r['words'] != 'ERROR')` (main.py line 137). -/
def successfulCount (results : List Row) : Nat :=
  results.countP (fun r => !(r.words == WordsField.sentinel))

/-- `sum(int(r['words']) for r in results if isinstance(r['words'], int))`
(main.py line 138). -/
def totalWords (results : List Row) : Int :=
  (results.filterMap (fun r =>
    match r.words with
    | WordsField.int n => some n
    | WordsField.sentinel => none)).sum

/-! ### Helper lemmas about the character-level parsers -/

lemma isDigitCh_range {c : Char} (h : isDigitCh c = true) : 48 ≤ c.toNat ∧ c.toNat ≤ 57 := by
  simpa [isDigitCh] using h

lemma digit_not_space {c : Char} (h : isDigitCh c = true) : pyIsSpace c = false := by
  have hr := isDigitCh_range h
  have e1 : (c == ' ') = false := by
    rw [beq_eq_false_iff_ne]; intro he; subst he; exact absurd hr (by decide)
  have e2 : (c == '\t') = false := by
    rw [beq_eq_false_iff_ne]; intro he; subst he; exact absurd hr (by decide)
  have e3 : (c == '\n') = false := by
    rw [beq_eq_false_iff_ne]; intro he; subst he; exact absurd hr (by decide)
  have e4 : (c == '\r') = false := by
    rw [beq_eq_false_iff_ne]; intro he; subst he; exact absurd hr (by decide)
  have e5 : (c.toNat == 11) = false := by
    rw [beq_eq_false_iff_ne]; intro he; rw [he] at hr; exact absurd hr (by decide)
  have e6 : (c.toNat == 12) = false := by
    rw [beq_eq_false_iff_ne]; intro he; rw [he] at hr; exact absurd hr (by decide)
  unfold pyIsSpace
  rw [e1, e2, e3, e4, e5, e6]
  rfl

lemma digit_ne_colon {c : Char} (h : isDigitCh c = true) : ¬ c = ':' := by
  intro h1; subst h1; exact absurd h (by decide)

lemma digit_ne_plus {c : Char} (h : isDigitCh c = true) : ¬ c = '+' := by
  intro h1; subst h1; exact absurd h (by decide)

lemma digit_ne_minus {c : Char} (h : isDigitCh c = true) : ¬ c = '-' := by
  intro h1; subst h1; exact absurd h (by decide)

lemma splitOnChar_no_sep {sep : Char} {xs : List Char} (h : ∀ c ∈ xs, ¬ c = sep) :
    splitOnChar sep xs = [xs] := by
  induction xs with
  | nil => rfl
  | cons c cs ih =>
    have hc : ¬ c = sep := h c (List.mem_cons_self c cs)
    have hrest := ih (fun d hd => h d (List.mem_cons_of_mem c hd))
    simp only [splitOnChar, if_neg hc, hrest]

lemma splitOnChar_append {sep : Char} {xs ys : List Char} (h : ∀ c ∈ xs, ¬ c = sep) :
    splitOnChar sep (xs ++ sep :: ys) = xs :: splitOnChar sep ys := by
  induction xs with
  | nil => simp [splitOnChar]
  | cons c cs ih =>
    have hc : ¬ c = sep := h c (List.mem_cons_self c cs)
    have hrest := ih (fun d hd => h d (List.mem_cons_of_mem c hd))
    simp only [List.cons_append, splitOnChar, if_neg hc, List.append_eq, hrest]

lemma dropWhile_no_space {l : List Char} (h : ∀ c ∈ l, pyIsSpace c = false) :
    l.dropWhile pyIsSpace = l := by
  cases l with
  | nil => rfl
  | cons a as =>
    have ha := h a (List.mem_cons_self a as)
    simp [List.dropWhile, ha]

lemma stripChars_digits {ds : List Char} (hne : ds ≠ []) (hd : ∀ c ∈ ds, isDigitCh c = true) :
    stripChars (' ' :: ds) = ds := by
  have hnos : ∀ c ∈ ds, pyIsSpace c = false := fun c hc => digit_not_space (hd c hc)
  have h1 : (' ' :: ds).dropWhile pyIsSpace = ds.dropWhile pyIsSpace := by
    simp [List.dropWhile, pyIsSpace]
  have h2 : ds.dropWhile pyIsSpace = ds := dropWhile_no_space hnos
  have h3 : ds.reverse.dropWhile pyIsSpace = ds.reverse := by
    apply dropWhile_no_space
    intro c hc
    exact hnos c (List.mem_reverse.mp hc)
  unfold stripChars
  rw [h1, h2, h3, List.reverse_reverse]

lemma digitsValAux_all {ds : List Char} (hd : ∀ c ∈ ds, isDigitCh c = true) :
    ∀ acc, digitsValAux acc ds = some (ds.foldl (fun a c => 10 * a + (c.toNat - 48)) acc) := by
  induction ds with
  | nil => intro acc; rfl
  | cons c cs ih =>
    intro acc
    have hc := hd c (List.mem_cons_self c cs)
    have := ih (fun d hdm => hd d (List.mem_cons_of_mem c hdm)) (10 * acc + (c.toNat - 48))
    simp only [digitsValAux, if_pos hc, this, List.foldl_cons]

lemma digitsVal_all {ds : List Char} (hne : ds ≠ []) (hd : ∀ c ∈ ds, isDigitCh c = true) :
    digitsVal ds = some (decimalVal ds) := by
  cases ds with
  | nil => exact absurd rfl hne
  | cons c cs =>
    simp only [digitsVal, decimalVal]
    exact digitsValAux_all hd 0

/-- A line that is exactly the text `WORD_COUNT: ` followed by a non-empty
run of decimal digits of value `n` — the well-formed reply line the format
directive asks for. -/
def IsWCLine (l : List Char) (n : Nat) : Prop :=
  ∃ ds, ds ≠ [] ∧ (∀ c ∈ ds, isDigitCh c = true) ∧
    l = "WORD_COUNT: ".data ++ ds ∧ decimalVal ds = n

lemma begins_append (p r : List Char) : begins p (p ++ r) = true := by
  induction p with
  | nil => rfl
  | cons a as ih => simp [begins, ih]

lemma hasSub_of_begins {pat l : List Char} (h : begins pat l = true) : hasSub pat l = true := by
  cases l with
  | nil =>
    cases pat with
    | nil => rfl
    | cons p ps => exact absurd h (by simp [begins])
  | cons c cs => simp [hasSub, h]

lemma field1Int_wcline {l : List Char} {n : Nat} (h : IsWCLine l n) :
    field1Int l = some (n : Int) := by
  obtain ⟨ds, hne, hd, hl, hval⟩ := h
  have hsplit2 : splitOnChar ':' (' ' :: ds) = [' ' :: ds] := by
    apply splitOnChar_no_sep
    intro c hc
    rcases List.mem_cons.mp hc with h1 | h1
    · subst h1; decide
    · exact digit_ne_colon (hd c h1)
  have hw : "WORD_COUNT: ".data = "WORD_COUNT".data ++ ':' :: [' '] := by decide
  have hshape : l = "WORD_COUNT".data ++ ':' :: (' ' :: ds) := by
    rw [hl, hw, List.append_assoc]
    rfl
  have hnc : ∀ c ∈ "WORD_COUNT".data, ¬ c = ':' := by decide
  have hsplit : splitOnChar ':' l = ["WORD_COUNT".data, ' ' :: ds] := by
    rw [hshape, splitOnChar_append hnc, hsplit2]
  unfold field1Int
  rw [hsplit]
  show pyInt? (' ' :: ds) = some (n : Int)
  have hstrip : stripChars (' ' :: ds) = ds := stripChars_digits hne hd
  unfold pyInt?
  rw [hstrip]
  cases ds with
  | nil => exact absurd rfl hne
  | cons d ds' =>
    have hdd := hd d (List.mem_cons_self d ds')
    simp only [pyIntCore, if_neg (digit_ne_plus hdd), if_neg (digit_ne_minus hdd)]
    rw [digitsVal_all hne hd, hval]
    rfl


lemma hasSub_wcline {l : List Char} {n : Nat} (h : IsWCLine l n) :
    hasSub wcLabel l = true := by
  obtain ⟨ds, hne, hd, hl, hval⟩ := h
  have hw : "WORD_COUNT: ".data = wcLabel ++ [' '] := by decide
  have : l = wcLabel ++ (' ' :: ds) := by
    rw [hl, hw, List.append_assoc]
    rfl
  rw [this]
  exact hasSub_of_begins (begins_append wcLabel (' ' :: ds))

/-! ### Lemmas about the line-scanning fold -/

lemma scanLine_fst_keep {a : List Char} (st : Option Int × Option Int)
    (h : hasSub wcLabel a = true → field1Int a = none) :
    (scanLine st a).1 = st.1 := by
  by_cases hc : hasSub wcLabel a = true
  · simp [scanLine, hc, h hc]
  · simp [scanLine, hc]

lemma scanLine_snd_keep {a : List Char} (st : Option Int × Option Int)
    (h : hasSub confLabel a = true → field1Int a = none) :
    (scanLine st a).2 = st.2 := by
  by_cases hc : hasSub confLabel a = true
  · simp [scanLine, hc, h hc]
  · simp [scanLine, hc]

lemma scanLine_fst_set {a : List Char} (st : Option Int × Option Int) {n : Int}
    (hlab : hasSub wcLabel a = true) (hfi : field1Int a = some n) :
    (scanLine st a).1 = some n := by
  simp [scanLine, hlab, hfi]

lemma scanLine_snd_set {a : List Char} (st : Option Int × Option Int) {n : Int}
    (hlab : hasSub confLabel a = true) (hfi : field1Int a = some n) :
    (scanLine st a).2 = some n := by
  simp [scanLine, hlab, hfi]

lemma foldl_fst_keep (lines : List (List Char)) :
    ∀ st : Option Int × Option Int,
      (∀ l ∈ lines, hasSub wcLabel l = true → field1Int l = none) →
      (lines.foldl scanLine st).1 = st.1 := by
  induction lines with
  | nil => intro st _; rfl
  | cons a as ih =>
    intro st h
    rw [List.foldl_cons, ih (scanLine st a) (fun l hl => h l (List.mem_cons_of_mem a hl))]
    exact scanLine_fst_keep st (h a (List.mem_cons_self a as))

lemma foldl_snd_keep (lines : List (List Char)) :
    ∀ st : Option Int × Option Int,
      (∀ l ∈ lines, hasSub confLabel l = true → field1Int l = none) →
      (lines.foldl scanLine st).2 = st.2 := by
  induction lines with
  | nil => intro st _; rfl
  | cons a as ih =>
    intro st h
    rw [List.foldl_cons, ih (scanLine st a) (fun l hl => h l (List.mem_cons_of_mem a hl))]
    exact scanLine_snd_keep st (h a (List.mem_cons_self a as))

lemma foldl_fst_forced (lines : List (List Char)) {v : Int} :
    ∀ st : Option Int × Option Int,
      (∃ l, l ∈ lines ∧ hasSub wcLabel l = true) →
      (∀ l ∈ lines, hasSub wcLabel l = true → field1Int l = some v) →
      (lines.foldl scanLine st).1 = some v := by
  induction lines with
  | nil =>
    rintro st ⟨l, hl, _⟩ _
    exact absurd hl (List.not_mem_nil l)
  | cons a as ih =>
    intro st hex hall
    rw [List.foldl_cons]
    by_cases has : ∃ l, l ∈ as ∧ hasSub wcLabel l = true
    · exact ih (scanLine st a) has (fun l hl => hall l (List.mem_cons_of_mem a hl))
    · have ha : hasSub wcLabel a = true := by
        rcases hex with ⟨l, hl, hlab⟩
        rcases List.mem_cons.mp hl with h1 | h1
        · rwa [h1] at hlab
        · exact absurd ⟨l, h1, hlab⟩ has
      have hkeep : ∀ l ∈ as, hasSub wcLabel l = true → field1Int l = none := by
        intro l hl hlab
        exact absurd ⟨l, hl, hlab⟩ has
      rw [foldl_fst_keep as (scanLine st a) hkeep]
      exact scanLine_fst_set st ha (hall a (List.mem_cons_self a as) ha)

/-! ### Lemmas about the per-run loop -/

lemma processAll_spec {files : List FileInput} {rows : List Row}
    (h : processAll files = some rows) :
    rows.length = files.length ∧
      ∀ i (hi : i < files.length) (hr : i < rows.length),
        processFile (files.get ⟨i, hi⟩) = some (rows.get ⟨i, hr⟩) := by
  induction files generalizing rows with
  | nil =>
    simp only [processAll, Option.some.injEq] at h
    subst h
    exact ⟨rfl, fun i hi => absurd hi (Nat.not_lt_zero i)⟩
  | cons f fs ih =>
    simp only [processAll] at h
    cases hf : processFile f with
    | none => rw [hf] at h; exact absurd h (by simp)
    | some r =>
      rw [hf] at h
      cases hfs : processAll fs with
      | none => rw [hfs] at h; exact absurd h (by simp)
      | some rs =>
        rw [hfs] at h
        simp only [Option.some.injEq] at h
        subst h
        obtain ⟨hlen, hget⟩ := ih hfs
        refine ⟨by simp [hlen], ?_⟩
        intro i hi hr
        cases i with
        | zero => simpa using hf
        | succ j =>
          have hj : j < fs.length := Nat.lt_of_succ_lt_succ hi
          have hjr : j < rs.length := Nat.lt_of_succ_lt_succ hr
          simpa using hget j hj hjr

lemma processAll_of_mem_none {x : FileInput} {l : List FileInput}
    (hm : x ∈ l) (hx : processFile x = none) : processAll l = none := by
  induction l with
  | nil => exact absurd hm (List.not_mem_nil x)
  | cons a as ih =>
    rcases List.mem_cons.mp hm with h1 | h1
    · subst h1
      simp [processAll, hx]
    · cases ha : processFile a with
      | none => simp [processAll, ha]
      | some r => simp [processAll, ha, ih h1]

lemma processFile_row {f : FileInput} {r : Row} (h : processFile f = some r) :
    ∃ s, sectionNum? f.stem = some s ∧ r.sec = s ∧
      ((∃ w, (count_savior_words f.response).1 = some w ∧ r.words = WordsField.int w ∧
          r.confidence = pyTruthy (count_savior_words f.response).2) ∨
        ((count_savior_words f.response).1 = none ∧ r.words = WordsField.sentinel ∧
          r.confidence = 0)) := by
  unfold processFile at h
  rw [Option.map_eq_some'] at h
  obtain ⟨s, hs, hr⟩ := h
  refine ⟨s, hs, ?_⟩
  rcases hcw : count_savior_words f.response with ⟨wc, cf⟩
  rw [hcw] at hr
  cases wc with
  | some w =>
    have : r = ⟨s, WordsField.int w, pyTruthy cf⟩ := by rw [← hr]; rfl
    subst this
    exact ⟨rfl, Or.inl ⟨w, rfl, rfl, rfl⟩⟩
  | none =>
    have : r = ⟨s, WordsField.sentinel, 0⟩ := by rw [← hr]; rfl
    subst this
    exact ⟨rfl, Or.inr ⟨rfl, rfl, rfl⟩⟩

lemma mem_insertStr {a s : String} {l : List String} :
    a ∈ insertStr s l ↔ a = s ∨ a ∈ l := by
  induction l with
  | nil => simp [insertStr]
  | cons t ts ih =>
    by_cases h : t < s
    · simp only [insertStr, if_pos (decide_eq_true h), List.mem_cons, ih]
      tauto
    · have : decide (t < s) = false := decide_eq_false h
      simp only [insertStr, this, Bool.false_eq_true, if_false, List.mem_cons]

lemma mem_sortStrs {a : String} {l : List String} : a ∈ sortStrs l ↔ a ∈ l := by
  induction l with
  | nil => simp [sortStrs]
  | cons s ss ih =>
    simp only [sortStrs, mem_insertStr, ih, List.mem_cons]

/-! ### Claims -/

/-- C1: every completed run records exactly one row per discovered input
file, in processing order: the result list has the same length as the file
list and its i-th row is exactly the row produced from the i-th file. -/
theorem c1_one_row_per_file (files : List FileInput) (rows : List Row)
    (h : processAll files = some rows) :
    rows.length = files.length ∧
      ∀ i (hi : i < files.length) (hr : i < rows.length),
        processFile (files.get ⟨i, hi⟩) = some (rows.get ⟨i, hr⟩) :=
  processAll_spec h

theorem c1_witness :
    ([⟨1, WordsField.int 12, 90⟩, ⟨4, WordsField.sentinel, 0⟩] : List Row).length =
      ([⟨"dc001", some "WORD_COUNT: 12\nCONFIDENCE: 90"⟩, ⟨"dc004", none⟩] :
        List FileInput).length :=
  (c1_one_row_per_file _ _ (by decide)).1

/-- C2: a document whose remote call raises yields the requester result
`(none, none)`, is recorded as a row with the `ERROR` sentinel and
confidence 0, and the run still records one row per file. -/
theorem c2_remote_error_isolated (files : List FileInput) (rows : List Row) (i : Nat)
    (hrun : processAll files = some rows) (hi : i < files.length) (hr : i < rows.length)
    (hresp : (files.get ⟨i, hi⟩).response = none) :
    count_savior_words (files.get ⟨i, hi⟩).response = (none, none) ∧
      (rows.get ⟨i, hr⟩).words = WordsField.sentinel ∧
      (rows.get ⟨i, hr⟩).confidence = 0 ∧
      rows.length = files.length := by
  obtain ⟨hlen, hget⟩ := processAll_spec hrun
  obtain ⟨s, hs, hsec, hcase⟩ := processFile_row (hget i hi hr)
  have hcw : count_savior_words (files.get ⟨i, hi⟩).response = (none, none) := by
    rw [hresp]
    rfl
  rcases hcase with ⟨w, hw, _, _⟩ | ⟨_, hwords, hconf⟩
  · rw [hcw] at hw
    exact absurd hw (by simp)
  · exact ⟨hcw, hwords, hconf, hlen⟩

theorem c2_witness :
    count_savior_words (([⟨"dc004", none⟩] : List FileInput).get
        ⟨0, Nat.zero_lt_one⟩).response = (none, none) ∧
      (([⟨4, WordsField.sentinel, 0⟩] : List Row).get ⟨0, Nat.zero_lt_one⟩).words =
        WordsField.sentinel ∧
      (([⟨4, WordsField.sentinel, 0⟩] : List Row).get ⟨0, Nat.zero_lt_one⟩).confidence = 0 ∧
      ([⟨4, WordsField.sentinel, 0⟩] : List Row).length =
        ([⟨"dc004", none⟩] : List FileInput).length :=
  c2_remote_error_isolated [⟨"dc004", none⟩] [⟨4, WordsField.sentinel, 0⟩] 0
    (by decide) Nat.zero_lt_one Nat.zero_lt_one rfl

/-- C3: when the reply contains a well-formed line `WORD_COUNT: <digits>`
and no other line contains the word-count label, the parsed word count is
exactly the value of those digits. -/
theorem c3_wellformed_word_count (t : String) (l : List Char) (n : Nat)
    (hmem : l ∈ linesOf t) (hwf : IsWCLine l n)
    (huniq : ∀ l' ∈ linesOf t, hasSub wcLabel l' = true → l' = l) :
    (count_savior_words (some t)).1 = some (n : Int) := by
  have hlab := hasSub_wcline hwf
  have hfi := field1Int_wcline hwf
  show (parseResponse t).1 = some (n : Int)
  unfold parseResponse
  apply foldl_fst_forced
  · exact ⟨l, hmem, hlab⟩
  · intro l' hl' hl'lab
    rw [huniq l' hl' hl'lab]
    exact hfi

theorem c3_witness :
    (count_savior_words (some "WORD_COUNT: 42\nCONFIDENCE: 90")).1 = some (42 : Int) :=
  c3_wellformed_word_count "WORD_COUNT: 42\nCONFIDENCE: 90" "WORD_COUNT: 42".data 42
    (by decide) ⟨['4', '2'], by decide, by decide, by decide, by decide⟩ (by decide)

/-- C4, refuted as stated: on the reply whose lines are `WORD_COUNT: 5`
then `WORD_COUNT: 7`, the parser returns 7, the value of the last labeled
line, not 5, the value of the first. -/
theorem c4_first_line_refuted :
    (count_savior_words (some "WORD_COUNT: 5\nWORD_COUNT: 7")).1 = some 7 ∧
      (7 : Int) ≠ 5 := by
  exact ⟨by decide, by decide⟩

/-- C4 amended: when several lines carry a label, the result is the
integer parsed from the last labeled line whose field parses; labeled
lines that fail to parse leave the earlier value, and likewise for the
confidence label. -/
theorem c4_last_parse_wins (t : String) :
    (∀ pre l post (n : Int), linesOf t = pre ++ l :: post →
        hasSub wcLabel l = true → field1Int l = some n →
        (∀ l' ∈ post, hasSub wcLabel l' = true → field1Int l' = none) →
        (count_savior_words (some t)).1 = some n) ∧
      (∀ pre l post (n : Int), linesOf t = pre ++ l :: post →
        hasSub confLabel l = true → field1Int l = some n →
        (∀ l' ∈ post, hasSub confLabel l' = true → field1Int l' = none) →
        (count_savior_words (some t)).2 = some n) := by
  constructor
  · intro pre l post n hdec hlab hfi hpost
    show (parseResponse t).1 = some n
    unfold parseResponse
    rw [hdec, List.foldl_append, List.foldl_cons]
    rw [foldl_fst_keep post _ hpost]
    exact scanLine_fst_set _ hlab hfi
  · intro pre l post n hdec hlab hfi hpost
    show (parseResponse t).2 = some n
    unfold parseResponse
    rw [hdec, List.foldl_append, List.foldl_cons]
    rw [foldl_snd_keep post _ hpost]
    exact scanLine_snd_set _ hlab hfi

theorem c4_witness :
    (count_savior_words
        (some "WORD_COUNT: 5\nWORD_COUNT: 7\nCONFIDENCE: 3\nCONFIDENCE: 9")).1 = some 7 ∧
      (count_savior_words
        (some "WORD_COUNT: 5\nWORD_COUNT: 7\nCONFIDENCE: 3\nCONFIDENCE: 9")).2 = some 9 :=
  ⟨(c4_last_parse_wins _).1 ["WORD_COUNT: 5".data] "WORD_COUNT: 7".data
      ["CONFIDENCE: 3".data, "CONFIDENCE: 9".data] 7 (by decide) (by decide) (by decide)
      (by decide),
    (c4_last_parse_wins _).2
      ["WORD_COUNT: 5".data, "WORD_COUNT: 7".data, "CONFIDENCE: 3".data]
      "CONFIDENCE: 9".data [] 9 (by decide) (by decide) (by decide) (by decide)⟩

/-- C5, refuted as stated: the parser records whatever integers the reply
carries, so a reply `WORD_COUNT: -3` / `CONFIDENCE: 150` yields a negative
words value and a confidence outside 0-100. -/
theorem c5_range_refuted :
    processAll [⟨"dc001", some "WORD_COUNT: -3\nCONFIDENCE: 150"⟩] =
        some [⟨1, WordsField.int (-3), 150⟩] ∧
      (-3 : Int) < 0 ∧ (100 : Int) < 150 :=
  ⟨by decide, by decide, by decide⟩

/-- The amended row invariant: `words` carries an integer or the sentinel
(never an absent value), and a sentinel row always has confidence 0. -/
def RowOk (r : Row) : Prop :=
  (∃ n : Int, r.words = WordsField.int n) ∨
    (r.words = WordsField.sentinel ∧ r.confidence = 0)

/-- C5 amended: in every recorded row the words field is either an integer
(of whatever sign the reply produced) or the literal sentinel, never
absent; when it is the sentinel the confidence is 0.  No range check
bounds either field. -/
theorem c5_words_never_absent (files : List FileInput) (rows : List Row)
    (h : processAll files = some rows) : ∀ r ∈ rows, RowOk r := by
  intro r hr
  obtain ⟨⟨i, hr'⟩, hget⟩ := List.get_of_mem hr
  obtain ⟨hlen, hpf⟩ := processAll_spec h
  have hi : i < files.length := hlen ▸ hr'
  have hpfi := hpf i hi hr'
  rw [hget] at hpfi
  obtain ⟨s, _, _, hcase⟩ := processFile_row hpfi
  rcases hcase with ⟨w, _, hw, _⟩ | ⟨_, hw, hc⟩
  · exact Or.inl ⟨w, hw⟩
  · exact Or.inr ⟨hw, hc⟩

theorem c5_witness : RowOk ⟨1, WordsField.int (-3), 150⟩ :=
  c5_words_never_absent [⟨"dc001", some "WORD_COUNT: -3\nCONFIDENCE: 150"⟩]
    [⟨1, WordsField.int (-3), 150⟩] (by decide) _ (by decide)

/-- C6: a successful reply none of whose lines carries a parseable
confidence field leaves the recorded confidence at the integer 0. -/
theorem c6_missing_confidence_zero (files : List FileInput) (rows : List Row) (i : Nat)
    (hrun : processAll files = some rows) (hi : i < files.length) (hr : i < rows.length)
    (t : String) (hresp : (files.get ⟨i, hi⟩).response = some t)
    (hnoconf : ∀ l ∈ linesOf t, hasSub confLabel l = true → field1Int l = none) :
    (rows.get ⟨i, hr⟩).confidence = 0 := by
  obtain ⟨hlen, hget⟩ := processAll_spec hrun
  obtain ⟨s, hs, hsec, hcase⟩ := processFile_row (hget i hi hr)
  have hsnd : (count_savior_words (files.get ⟨i, hi⟩).response).2 = none := by
    rw [hresp]
    show (parseResponse t).2 = none
    unfold parseResponse
    exact foldl_snd_keep _ _ hnoconf
  rcases hcase with ⟨w, _, _, hconf⟩ | ⟨_, _, hconf⟩
  · rw [hconf, hsnd]
    rfl
  · exact hconf

theorem c6_witness :
    (([⟨1, WordsField.int 12, 0⟩] : List Row).get ⟨0, Nat.zero_lt_one⟩).confidence = 0 :=
  c6_missing_confidence_zero [⟨"dc001", some "WORD_COUNT: 12"⟩] [⟨1, WordsField.int 12, 0⟩]
    0 (by decide) Nat.zero_lt_one Nat.zero_lt_one "WORD_COUNT: 12" rfl (by decide)

/-- Count of rows without the sentinel, written from the claim text. -/
def claimSuccessful (rows : List Row) : Nat :=
  (rows.filter (fun r => !(r.words == WordsField.sentinel))).length

/-- Whether a row holds an integer word count. -/
def rowIsInt (r : Row) : Bool :=
  match r.words with
  | WordsField.int _ => true
  | WordsField.sentinel => false

/-- The integer carried by a row's words field (0 on the sentinel). -/
def wordsVal (r : Row) : Int :=
  match r.words with
  | WordsField.int n => n
  | WordsField.sentinel => 0

/-- Sum of words over exactly the rows holding an integer, written from
the claim text. -/
def claimTotal (rows : List Row) : Int :=
  ((rows.filter rowIsInt).map wordsVal).sum

/-- C7: the printed summary counters equal the number of recorded rows
whose words field is not the sentinel and the sum of the words values over
exactly the rows holding an integer. -/
theorem c7_summary_counters (rows : List Row) :
    successfulCount rows = claimSuccessful rows ∧ totalWords rows = claimTotal rows := by
  constructor
  · simp [successfulCount, claimSuccessful, List.countP_eq_length_filter]
  · induction rows with
    | nil => rfl
    | cons r rs ih =>
      cases hw : r.words with
      | int n =>
        have h1 : totalWords (r :: rs) = n + totalWords rs := by
          simp [totalWords, List.filterMap_cons, hw]
        have h2 : claimTotal (r :: rs) = n + claimTotal rs := by
          simp [claimTotal, List.filter_cons, rowIsInt, wordsVal, hw]
        rw [h1, h2, ih]
      | sentinel =>
        have h1 : totalWords (r :: rs) = totalWords rs := by
          simp [totalWords, List.filterMap_cons, hw]
        have h2 : claimTotal (r :: rs) = claimTotal rs := by
          simp [claimTotal, List.filter_cons, rowIsInt, hw]
        rw [h1, h2, ih]

/-- C8: with no matching file in the listing (in particular a missing
directory, whose glob yields nothing), the enumerator returns the empty
sequence, the run completes with zero rows, the output is the header line
alone, and both summary counters are 0. -/
theorem c8_empty_input (entries : List String) (fetch : String → Option String)
    (h : ∀ e ∈ entries, isDCName e = false) :
    get_dc_files entries = [] ∧ runReport entries fetch = some [] ∧
      csvLines [] = [csvHeader] ∧ successfulCount [] = 0 ∧ totalWords [] = 0 := by
  have hfil : entries.filter isDCName = [] := by
    rw [List.filter_eq_nil_iff]
    intro a ha
    simp [h a ha]
  have hg : get_dc_files entries = [] := by
    unfold get_dc_files
    rw [hfil]
    rfl
  refine ⟨hg, ?_, rfl, rfl, rfl⟩
  unfold runReport
  rw [hg]
  rfl

theorem c8_witness :
    get_dc_files ["notes.txt", "README"] = [] ∧
      runReport ["notes.txt", "README"] (fun _ => none) = some [] ∧
      csvLines [] = [csvHeader] ∧ successfulCount [] = 0 ∧ totalWords [] = 0 :=
  c8_empty_input ["notes.txt", "README"] (fun _ => none) (by decide)

/-- C9: when no word-count line of a successful reply parses, the row is
recorded with the sentinel and confidence 0 even if a confidence value was
parsed from the same reply. -/
theorem c9_confidence_discarded (files : List FileInput) (rows : List Row) (i : Nat)
    (hrun : processAll files = some rows) (hi : i < files.length) (hr : i < rows.length)
    (t : String) (c : Int) (hresp : (files.get ⟨i, hi⟩).response = some t)
    (hnowc : ∀ l ∈ linesOf t, hasSub wcLabel l = true → field1Int l = none)
    (hconf : (parseResponse t).2 = some c) :
    (rows.get ⟨i, hr⟩).words = WordsField.sentinel ∧ (rows.get ⟨i, hr⟩).confidence = 0 := by
  obtain ⟨hlen, hget⟩ := processAll_spec hrun
  obtain ⟨s, hs, hsec, hcase⟩ := processFile_row (hget i hi hr)
  have hfst : (count_savior_words (files.get ⟨i, hi⟩).response).1 = none := by
    rw [hresp]
    show (parseResponse t).1 = none
    unfold parseResponse
    exact foldl_fst_keep _ _ hnowc
  rcases hcase with ⟨w, hw, _, _⟩ | ⟨_, hwords, hconf0⟩
  · rw [hfst] at hw
    exact absurd hw (by simp)
  · exact ⟨hwords, hconf0⟩

theorem c9_witness :
    (([⟨1, WordsField.sentinel, 0⟩] : List Row).get ⟨0, Nat.zero_lt_one⟩).words =
        WordsField.sentinel ∧
      (([⟨1, WordsField.sentinel, 0⟩] : List Row).get ⟨0, Nat.zero_lt_one⟩).confidence = 0 :=
  c9_confidence_discarded [⟨"dc001", some "WORD_COUNT: abc\nCONFIDENCE: 90"⟩]
    [⟨1, WordsField.sentinel, 0⟩] 0 (by decide) Nat.zero_lt_one Nat.zero_lt_one
    "WORD_COUNT: abc\nCONFIDENCE: 90" 90 rfl (by decide) (by decide)

/-- C10: an enumerated file matching the pattern whose stem does not yield
a section number (the `int` call raises) aborts the whole run before any
output is produced; the failure is not isolated to that document. -/
theorem c10_bad_stem_aborts (entries : List String) (fetch : String → Option String)
    (name : String) (hmem : name ∈ entries) (hdc : isDCName name = true)
    (hbad : sectionNum? (stemOf name) = none) :
    runReport entries fetch = none := by
  have hmem2 : name ∈ get_dc_files entries := by
    unfold get_dc_files
    exact mem_sortStrs.mpr (List.mem_filter.mpr ⟨hmem, hdc⟩)
  have hmem3 : (⟨stemOf name, fetch name⟩ : FileInput) ∈
      (get_dc_files entries).map (fun nm => (⟨stemOf nm, fetch nm⟩ : FileInput)) :=
    List.mem_map_of_mem _ hmem2
  have hpf : processFile ⟨stemOf name, fetch name⟩ = none := by
    unfold processFile
    rw [hbad]
    rfl
  unfold runReport
  exact processAll_of_mem_none hmem3 hpf

theorem c10_witness : runReport ["dcIntro.md"] (fun _ => none) = none :=
  c10_bad_stem_aborts ["dcIntro.md"] (fun _ => none) "dcIntro.md"
    (by decide) (by decide) (by decide)
